import Mathlib

/-!
Verification of the Twilio ↔ OpenAI realtime voice relay (`main.py`).

The file shallowly embeds the data flow of `main.py`:

* JSON values exchanged on the two WebSocket connections are modelled by
  `JVal`; Python dictionary subscription (`d['k']`, raising `KeyError` /
  `TypeError`) is `jget`, and `dict.get(k, default)` is `jgetD`.
* Python string operations used by the source (`str.lower`, `in`,
  `str.split`, `str.strip`, `str.replace`) are modelled over `Str := List
  Char` by `pyLower`, `pyContains`, `pySplit`, `pyStrip`, `pyReplaceSpace`.
* `base64.b64encode(base64.b64decode s)` is `b64RoundTrip` (modelled for
  inputs made of alphabet characters and trailing padding; CPython
  additionally discards foreign characters, which the relay never receives
  in the situations the theorems below consider).
* The inbound relay loop `receive_from_twilio` and the outbound relay loop
  `send_to_twilio` are folds over the list of messages each connection
  delivers; an exception escaping one event's processing is an `Except.error`
  carrying the state at the moment the exception was raised (sends already
  performed stay performed).
-/

/-- Python strings, modelled as lists of characters. -/
abbrev Str := List Char

/-- Python `str.lower()`.  (Char.toLower lowers ASCII letters; the source only ever
matches the ASCII word "name".) -/
def pyLower (s : Str) : Str := s.map Char.toLower

/-- Python's substring test `sep in s` (for the fixed non-empty separators the
source uses). -/
def pyContains (sep : Str) : Str → Bool
  | [] => sep.isEmpty
  | c :: t => sep.isPrefixOf (c :: t) || pyContains sep t

/-- Core of Python's `str.split(sep)` for non-empty `sep`: greedy
left-to-right scan, emitting the chunk before each non-overlapping
occurrence of `sep`.  The `Nat` argument is recursion fuel; every step
consumes at least one character, so fuel `s.length` always suffices. -/
def pySplitFuel (sep : Str) : Nat → Str → List Str
  | _, [] => [[]]
  | 0, c :: t => [c :: t]
  | f + 1, c :: t =>
    if sep.isPrefixOf (c :: t) then
      [] :: pySplitFuel sep f (List.drop (sep.length - 1) t)
    else
      match pySplitFuel sep f t with
      | [] => [[c]]
      | h :: r => (c :: h) :: r

/-- Python `s.split(sep)`.  (Python raises `ValueError` on an empty
separator; the source only splits on `"name"`.) -/
def pySplit (sep s : Str) : List Str :=
  if sep.isEmpty then [s] else pySplitFuel sep s.length s

/-- Python whitespace characters stripped by `str.strip()` (ASCII part). -/
def isPySpace (c : Char) : Bool :=
  c == ' ' || c == '\t' || c == '\n' || c == '\r' ||
  c == Char.ofNat 11 || c == Char.ofNat 12

/-- Python `s.strip()`. -/
def pyStrip (s : Str) : Str :=
  ((s.dropWhile isPySpace).reverse.dropWhile isPySpace).reverse

/-- Python `s.replace(' ', '_')` (single-character pattern, so a map). -/
def pyReplaceSpace (s : Str) : Str :=
  s.map fun c => if c == ' ' then '_' else c

/-- JSON values as delivered by `json.loads` / `WSMessage.json()`.
Numbers are carried as their decimal source text: the relay never computes
with a number, it only embeds them in outgoing JSON. -/
inductive JVal where
  | null
  | bool (b : Bool)
  | num (lit : Str)
  | str (s : Str)
  | obj (fields : List (Str × JVal))
  | arr (elems : List JVal)

/-- Python `d[k]` on a decoded JSON value: `KeyError` when the key is
missing, `TypeError` when `d` is not a dict.  Both surface as the same
`Except.error` because the source never distinguishes them. -/
def jget (v : JVal) (k : Str) : Except Unit JVal :=
  match v with
  | .obj fs =>
    match fs.find? (fun p => p.1 == k) with
    | some p => .ok p.2
    | none => .error ()
  | _ => .error ()

/-- Python `d.get(k, default)` (only ever reached on dict values in the
source; on a non-dict we return the default). -/
def jgetD (v : JVal) (k : Str) (d : JVal) : JVal :=
  match v with
  | .obj fs =>
    match fs.find? (fun p => p.1 == k) with
    | some p => p.2
    | none => d
  | _ => d

/-- Comparison `v == "s"` for a Python value `v` of unknown type against a string
literal: true exactly when `v` is that string. -/
def jvalIsStr (v : JVal) (s : Str) : Bool :=
  match v with
  | .str t => t == s
  | _ => false

/-- Python truthiness of a decoded JSON value (`if response.get('delta'):`). -/
def pyTruthy : JVal → Bool
  | .null => false
  | .bool b => b
  | .num l => l.any fun c => '1' ≤ c && c ≤ '9'
  | .str s => !s.isEmpty
  | .obj fs => !fs.isEmpty
  | .arr es => !es.isEmpty

/-- A Python single-quoted rendering of a string (as `repr` produces for
strings without quotes or escapes, the only ones the relay handles). -/
def pyQuote (s : Str) : Str := Char.ofNat 39 :: (s ++ [Char.ofNat 39])

mutual

/-- Python `str(v)` (f-string conversion) of a decoded JSON value.
`str` and `repr` agree on every JSON scalar except strings, which `str`
renders bare at top level and `repr` renders quoted inside containers. -/
def pyStr : JVal → Str
  | .null => "None".data
  | .bool true => "True".data
  | .bool false => "False".data
  | .num l => l
  | .str s => s
  | .obj fs => Char.ofNat 123 :: (pyFieldsR fs ++ [Char.ofNat 125])
  | .arr es => '[' :: (pyElemsR es ++ [']'])

/-- Python `repr(v)` of a decoded JSON value (strings quoted). -/
def pyReprV : JVal → Str
  | .null => "None".data
  | .bool true => "True".data
  | .bool false => "False".data
  | .num l => l
  | .str s => pyQuote s
  | .obj fs => Char.ofNat 123 :: (pyFieldsR fs ++ [Char.ofNat 125])
  | .arr es => '[' :: (pyElemsR es ++ [']'])

/-- Comma-separated `'key': repr(value)` entries of a dict rendering. -/
def pyFieldsR : List (Str × JVal) → Str
  | [] => []
  | kv :: rest =>
    pyQuote kv.1 ++ ": ".data ++ pyReprV kv.2 ++
      (if rest.isEmpty then [] else (", ".data)) ++ pyFieldsR rest

/-- Comma-separated `repr(value)` entries of a list rendering. -/
def pyElemsR : List JVal → Str
  | [] => []
  | v :: rest =>
    pyReprV v ++ (if rest.isEmpty then [] else (", ".data)) ++ pyElemsR rest

end

/-! ### base64

`base64.b64encode(base64.b64decode(s)).decode('utf-8')` from line 123 of
`main.py`.  Modelled for inputs consisting of alphabet characters with
optional trailing padding; like CPython, non-canonical padding bits are
accepted and silently normalised by the re-encoding, and a quantum count
not divisible by four raises (`binascii.Error`). -/

def b64Alphabet : Str :=
  "ABCDEFGHIJKLMNOPQRSTUVWXYZabcdefghijklmnopqrstuvwxyz0123456789+/".data

def b64Index (c : Char) : Option Nat := b64Alphabet.findIdx? (· == c)

def b64Chr (n : Nat) : Char := b64Alphabet.getD n 'A'

/-- Python `base64.b64decode`, quantum by quantum, producing bytes. -/
def b64DecodeQuads : Str → Except Unit (List Nat)
  | [] => .ok []
  | a :: b :: c :: d :: rest =>
    match b64Index a, b64Index b with
    | some va, some vb =>
      if d == '=' then
        if !rest.isEmpty then .error ()
        else if c == '=' then .ok [va * 4 + vb / 16]
        else
          match b64Index c with
          | some vc => .ok [va * 4 + vb / 16, vb % 16 * 16 + vc / 4]
          | none => .error ()
      else
        match b64Index c, b64Index d with
        | some vc, some vd =>
          match b64DecodeQuads rest with
          | .ok bs => .ok ([va * 4 + vb / 16, vb % 16 * 16 + vc / 4, vc % 4 * 64 + vd] ++ bs)
          | .error e => .error e
        | _, _ => .error ()
    | _, _ => .error ()
  | _ => .error ()

/-- Python `base64.b64encode` of a byte list. -/
def b64EncodeBytes : List Nat → Str
  | [] => []
  | [x] => [b64Chr (x / 4), b64Chr (x % 4 * 16), '=', '=']
  | [x, y] => [b64Chr (x / 4), b64Chr (x % 4 * 16 + y / 16), b64Chr (y % 16 * 4), '=']
  | x :: y :: z :: rest =>
    [b64Chr (x / 4), b64Chr (x % 4 * 16 + y / 16), b64Chr (y % 16 * 4 + z / 64), b64Chr (z % 64)]
      ++ b64EncodeBytes rest

/-- Composition `base64.b64encode(base64.b64decode(s))`: error when decoding raises. -/
def b64RoundTrip (s : Str) : Except Unit Str :=
  (b64DecodeQuads s).map b64EncodeBytes

example : pySplit ("name".data) ("xnamey".data) = ["x".data, "y".data] := by decide
example : pySplit ("name".data) ("namename".data) = [[], [], []] := by decide
example : pySplit ("name".data) ("abc".data) = ["abc".data] := by decide
example : pyContains ("name".data) ("my Name".data) = false := by decide
example : pyContains ("name".data) (pyLower ("my Name".data)) = true := by decide
example : pyStrip ("  is Asha.  ".data) = "is Asha.".data := by decide
example : b64RoundTrip ("AA==".data) = .ok ("AA==".data) := rfl
example : b64RoundTrip ("XYZ=".data) = .ok ("XYY=".data) := rfl
example : b64RoundTrip ("A".data) = .error () := rfl
example : pyStr (.str ("hi".data)) = "hi".data := rfl
example : pyStr (.obj [("a".data, .null)]) =
    (Char.ofNat 123 :: (pyQuote ("a".data) ++ ": None".data ++ [Char.ofNat 125])) := rfl

/-! ### Per-call constants of `main.py` -/

/-- The sentinel initial value of `client_name` (line 87). -/
def unknownClient : Str := "Unknown Client".data

/-- The literal the name heuristic searches and splits on (lines 140-141). -/
def nameLit : Str := "name".data

/-- Constant `VOICE` (line 28). -/
def VOICE : Str := "alloy".data

/-- Constant `SYSTEM_MESSAGE` (lines 20-26). -/
def SYSTEM_MESSAGE : Str :=
  ("You are an AI assistant specializing in loan details collection, specifically for Indian clients. " ++
   "Your task is to interact with the client in a friendly, polite, and culturally appropriate Indian tone. " ++
   "You should carefully ask for their personal and loan details, such as their name, address, loan amount, loan purpose, " ++
   "and other relevant details. Use common Indian expressions and ensure that you respond in an approachable, respectful, " ++
   "and professional manner. If the client uses Hindi, Gujarati, or other Indian languages, you should respond in the same language.").data

/-- The session-initialization message built by `send_session_update`
(lines 151-166), sent once at line 85 before either relay loop starts. -/
def session_update : JVal :=
  .obj [("type".data, .str ("session.update".data)),
        ("session".data, .obj
          [("turn_detection".data, .obj [("type".data, .str ("server_vad".data))]),
           ("input_audio_format".data, .str ("g711_ulaw".data)),
           ("output_audio_format".data, .str ("g711_ulaw".data)),
           ("voice".data, .str VOICE),
           ("instructions".data, .str SYSTEM_MESSAGE),
           ("modalities".data, .arr [.str ("text".data), .str ("audio".data)]),
           ("temperature".data, .num ("0.8".data))])]

/-! ### Inbound relay: `receive_from_twilio` (lines 90-108)

The loop state is the `stream_sid` shared variable plus the trace of
messages sent to the OpenAI connection.  One iteration of
`async for message in websocket.iter_text()` processes one delivered text
frame; `none` stands for a frame `json.loads` cannot parse.  The `try`
around the loop catches only `WebSocketDisconnect`, so `json.loads` and
dictionary `KeyError`s escape the coroutine: they are modelled as
`Except.error` carrying the state at the moment of the raise (messages
already sent stay sent).  `closed` is the value of `openai_ws.closed`
sampled by line 96. -/

structure InState where
  stream_sid : JVal
  sent_openai : List JVal

/-- The `input_audio_buffer.append` message of lines 97-100. -/
def audioAppendJ (payload : JVal) : JVal :=
  .obj [("type".data, .str ("input_audio_buffer.append".data)),
        ("audio".data, payload)]

/-- One iteration of the inbound loop body (lines 95-104). -/
def receive_step (closed : Bool) (st : InState) (m : Option JVal) :
    Except InState InState :=
  match m with
  | none => .error st
  | some data =>
    match jget data ("event".data) with
    | .error _ => .error st
    | .ok ev =>
      if jvalIsStr ev ("media".data) && !closed then
        match jget data ("media".data) with
        | .error _ => .error st
        | .ok mobj =>
          match jget mobj ("payload".data) with
          | .error _ => .error st
          | .ok payload =>
            .ok { st with sent_openai := st.sent_openai ++ [audioAppendJ payload] }
      else if jvalIsStr ev ("start".data) then
        match jget data ("start".data) with
        | .error _ => .error st
        | .ok sobj =>
          match jget sobj ("streamSid".data) with
          | .error _ => .error st
          | .ok sid => .ok { st with stream_sid := sid }
      else .ok st

/-- The inbound relay loop over the frames the telephony connection
delivers before it closes. -/
def receive_from_twilio (closed : Bool) (st : InState) :
    List (Option JVal) → Except InState InState
  | [] => .ok st
  | m :: ms =>
    match receive_step closed st m with
    | .ok st2 => receive_from_twilio closed st2 ms
    | .error st2 => .error st2

/-! ### Outbound relay: `send_to_twilio` (lines 110-144)

State: the shared `stream_sid` as this loop reads it, `client_name`,
`conversation_log`, and the trace of frames sent to the telephony
connection.  `none` stands for an AI frame whose `.json()` raises.  The
whole loop body sits in one `try/except Exception` (lines 113, 143), so an
exception while processing an event is caught and logged but ends the
loop; only the inner `try` of lines 122-133 recovers per event.  The
result's `Bool` is true when the loop consumed its whole input. -/

structure OutState where
  stream_sid : JVal
  client_name : Str
  conversation_log : Str
  sent_twilio : List JVal

/-- The outbound telephony `media` frame of lines 124-130. -/
def twilioMediaJ (sid : JVal) (payload : Str) : JVal :=
  .obj [("event".data, .str ("media".data)),
        ("streamSid".data, sid),
        ("media".data, .obj [("payload".data, .str payload)])]

/-- Line 123: `b64encode(b64decode(response['delta']))`; `TypeError` when
`delta` is not a string, `binascii.Error` when it does not decode. -/
def deltaPayload (r : JVal) : Except Unit Str :=
  match jget r ("delta".data) with
  | .ok (.str s) => b64RoundTrip s
  | _ => .error ()

/-- Lines 140-141: the best-effort name heuristic, run on the `content`
string of a `response.content.done` event. -/
def nameUpdate (client_name s : Str) : Str :=
  if pyContains nameLit (pyLower s) && client_name == unknownClient then
    pyStrip ((pySplit nameLit s).getLastD [])
  else client_name

/-- The f-string of line 138 appended to `conversation_log`. -/
def aiLine (v : JVal) : Str := "AI: ".data ++ pyStr v ++ "\n".data

/-- Lines 120-133: the audio-delta branch, whose inner `try/except`
recovers from any failure of that branch alone. -/
def audio_delta_branch (st : OutState) (r ty : JVal) : OutState :=
  if jvalIsStr ty ("response.audio.delta".data) &&
      pyTruthy (jgetD r ("delta".data) .null) then
    match deltaPayload r with
    | .ok p =>
      { st with sent_twilio := st.sent_twilio ++ [twilioMediaJ st.stream_sid p] }
    | .error _ => st
  else st

/-- One iteration of the outbound loop body (lines 115-141).  An
`Except.error` is an exception escaping to the outer handler of line 143,
carrying the state at the raise (the log update of line 138 precedes the
`.lower()` call of line 140 that raises on non-string content). -/
def send_step (st : OutState) (m : Option JVal) : Except OutState OutState :=
  match m with
  | none => .error st
  | some r =>
    match jget r ("type".data) with
    | .error _ => .error st
    | .ok ty =>
      let st1 := audio_delta_branch st r ty
      if jvalIsStr ty ("response.content.done".data) then
        let ai := jgetD r ("content".data) (.str [])
        let st2 := { st1 with conversation_log := st1.conversation_log ++ aiLine ai }
        match ai with
        | .str s => .ok { st2 with client_name := nameUpdate st2.client_name s }
        | _ => .error st2
      else .ok st1

/-- The outbound relay loop over the events the AI connection delivers
before it closes. -/
def send_to_twilio (st : OutState) : List (Option JVal) → OutState × Bool
  | [] => (st, true)
  | m :: ms =>
    match send_step st m with
    | .ok st2 => send_to_twilio st2 ms
    | .error st2 => (st2, false)

/-! ### Call supervision: `handle_media_stream` (lines 70-149) -/

/-- Function `store_conversation` (lines 41-49): the filename the transcript is
persisted under, paired with the persisted content.  Line 44 writes under
the client's name (spaces replaced by underscores) unless the name still
equals the sentinel. -/
def store_conversation (client_name conversation : Str) : Str × Str :=
  (if client_name == unknownClient then ("Unknown_Client_loan_conversation.txt".data)
   else pyReplaceSpace client_name ++ "_loan_conversation.txt".data,
   conversation)

/-- Initial shared state created at lines 86-88. -/
def inInit : InState := { stream_sid := .null, sent_openai := [] }

def outInit : OutState :=
  { stream_sid := .null, client_name := unknownClient,
    conversation_log := [], sent_twilio := [] }

/-- The messages the inbound loop managed to send, whether or not it then
crashed. -/
def inStateSent : Except InState InState → List JVal
  | .ok st => st.sent_openai
  | .error st => st.sent_openai

structure CallResult where
  sent_openai : List JVal
  stored : Option (Str × Str)

/-- One call end to end, restricted to its interleaving-invariant outputs:
the trace of messages sent to the AI connection (only `send_session_update`
at line 85 and the inbound loop write to that socket, and line 85 is
awaited before `asyncio.gather` starts either loop), and the
`store_conversation` call of line 149 (its two arguments are written only
by the outbound loop and read no inbound state).  Line 149 is reached only
when `asyncio.gather` returns, i.e. when no uncaught exception escaped the
inbound loop (`send_to_twilio` catches all of its own). -/
def handle_media_stream (closed : Bool) (tms aes : List (Option JVal)) :
    CallResult :=
  let inbound := receive_from_twilio closed inInit tms
  let outbound := (send_to_twilio outInit aes).1
  { sent_openai := session_update :: inStateSent inbound
    stored :=
      match inbound with
      | .ok _ => some (store_conversation outbound.client_name outbound.conversation_log)
      | .error _ => none }

/-! ### Event shapes

The wire shapes of the two connections (telephony `start`/`media` events,
AI `response.content.done` / `response.audio.delta` events), used to state
the properties below. -/

def mediaEvtJ (payload : JVal) : JVal :=
  .obj [("event".data, .str ("media".data)),
        ("media".data, .obj [("payload".data, payload)])]

def startEvtJ (sid : JVal) : JVal :=
  .obj [("event".data, .str ("start".data)),
        ("start".data, .obj [("streamSid".data, sid)])]

def contentDoneJ (s : Str) : JVal :=
  .obj [("type".data, .str ("response.content.done".data)),
        ("content".data, .str s)]

def audioDeltaJ (delta : Str) : JVal :=
  .obj [("type".data, .str ("response.audio.delta".data)),
        ("delta".data, .str delta)]

/-! ### C1: media frames arriving before `start` -/

/-- C1, counterexample.  A `media` event processed before any `start` event
(the state is `inInit`, whose `stream_sid` is still null) is not dropped:
the relay forwards an `input_audio_buffer.append` message to the AI
connection.  Line 96 guards forwarding only on `openai_ws.closed`, never on
`stream_sid`. -/
theorem c1_counterexample :
    receive_from_twilio false inInit [some (mediaEvtJ (.str ("AAA=".data)))] =
      .ok { stream_sid := .null, sent_openai := [audioAppendJ (.str ("AAA=".data))] } := rfl

/-- C1, amended: a well-formed `media` event arriving while `stream_sid` is
still unset is forwarded to the AI connection whenever that connection is
open, and silently dropped (no error) only when it is closed; the presence
of a prior `start` event plays no role. -/
theorem c1_media_before_start (closed : Bool) (st : InState) (p : JVal)
    (h : st.stream_sid = JVal.null) :
    receive_step closed st (some (mediaEvtJ p)) =
      .ok { st with sent_openai :=
              if closed then st.sent_openai
              else st.sent_openai ++ [audioAppendJ p] } := by
  cases closed <;> rfl

/-- C1 witness. -/
theorem c1_media_before_start_witness :
    inInit.stream_sid = JVal.null ∧
    receive_step false inInit (some (mediaEvtJ (.str ("AAA=".data)))) =
      .ok { inInit with sent_openai :=
              if false then inInit.sent_openai
              else inInit.sent_openai ++ [audioAppendJ (.str ("AAA=".data))] } :=
  ⟨rfl, c1_media_before_start false inInit (.str ("AAA=".data)) rfl⟩

/-! ### C2: malformed telephony events -/

/-- C2, counterexample.  A frame `json.loads` cannot parse is not logged
and skipped: the `try` of line 93 catches only `WebSocketDisconnect`, so
the exception escapes `receive_from_twilio` and the loop dies — the
well-formed `media` event queued right after it is never processed
(the final state still has `sent_openai = []`). -/
theorem c2_counterexample :
    receive_from_twilio false inInit [none, some (mediaEvtJ (.str ("BBB=".data)))] =
      .error inInit := rfl

/-- C2, amended: a malformed telephony event (non-JSON text, or a `media`
event missing its payload) raises an uncaught exception that terminates
the inbound loop at that event; subsequent events are not processed.  It is
neither logged-and-skipped nor survivable. -/
theorem c2_malformed_crashes_inbound (closed : Bool) (st : InState)
    (ms : List (Option JVal)) :
    receive_from_twilio closed st (none :: ms) = .error st ∧
    receive_from_twilio false st
      (some (.obj [("event".data, .str ("media".data)), ("media".data, .obj [])]) :: ms) =
      .error st := by
  exact ⟨rfl, rfl⟩

/-! ### C3: exceptions in the outbound loop -/

/-- C3, counterexample.  An AI event lacking a `type` field raises
`KeyError` at line 116; the handler of line 143 catches it, but it wraps
the whole `async for`, so the loop terminates: the `response.content.done`
event queued right after is never consumed ("hello" is absent from the
final log, which is still empty). -/
theorem c3_counterexample :
    send_to_twilio outInit
      [some (.obj [("content".data, .str ("zzz".data))]), some (contentDoneJ ("hello".data))] =
      (outInit, false) := rfl

/-- C3, amended: an exception while processing one AI event is caught and
logged by the handler wrapping the whole loop, which therefore ends the
outbound loop at that event without crashing the call — it does not
continue consuming.  Only failures inside the audio-delta forwarding block
(lines 122-133, e.g. a `delta` that does not base64-decode, such as `"A"`)
are recovered per event, with consumption continuing. -/
theorem c3_outbound_exception_ends_loop (st st2 : OutState) (m : Option JVal)
    (ms : List (Option JVal)) (h : send_step st m = .error st2) :
    send_to_twilio st (m :: ms) = (st2, false) ∧
    send_to_twilio st (some (audioDeltaJ ("A".data)) :: ms) = send_to_twilio st ms := by
  constructor
  · simp [send_to_twilio, h]
  · rfl

/-- C3 witness. -/
theorem c3_outbound_exception_ends_loop_witness :
    send_step outInit (some (.obj [("content".data, .str ("zzz".data))])) = .error outInit ∧
    (send_to_twilio outInit [some (.obj [("content".data, .str ("zzz".data))]),
        some (contentDoneJ ("ok".data))] = (outInit, false) ∧
     send_to_twilio outInit (some (audioDeltaJ ("A".data)) :: [some (contentDoneJ ("ok".data))]) =
       send_to_twilio outInit [some (contentDoneJ ("ok".data))]) :=
  ⟨rfl, c3_outbound_exception_ends_loop outInit outInit
    (some (.obj [("content".data, .str ("zzz".data))])) [some (contentDoneJ ("ok".data))] rfl⟩

/-! ### C4: byte-preserving in-order audio pass-through -/

/-- After `start`, every well-formed `media` frame is forwarded unchanged
while the AI connection stays open. -/
theorem receive_media_run (ps : List Str) (st : InState) :
    receive_from_twilio false st (ps.map fun p => some (mediaEvtJ (.str p))) =
      .ok { st with sent_openai :=
              st.sent_openai ++ ps.map fun p => audioAppendJ (.str p) } := by
  induction ps generalizing st with
  | nil => simp [receive_from_twilio]
  | cons p ps ih =>
    simp only [List.map_cons]
    show (match receive_step false st (some (mediaEvtJ (.str p))) with
          | .ok st2 => receive_from_twilio false st2 (ps.map fun p => some (mediaEvtJ (.str p)))
          | .error st2 => .error st2) = _
    have hstep : receive_step false st (some (mediaEvtJ (.str p))) =
        .ok { st with sent_openai := st.sent_openai ++ [audioAppendJ (.str p)] } := rfl
    rw [hstep]
    dsimp only
    rw [ih]
    simp

/-- C4.  For every `start` event followed by any number of well-formed
`media` events (with the AI connection open), the relay sends exactly one
`input_audio_buffer.append` per `media` event, in arrival order, whose
`audio` field is the received `media.payload` character for character. -/
theorem c4_audio_passthrough (sid : JVal) (ps : List Str) :
    receive_from_twilio false inInit
        (some (startEvtJ sid) :: ps.map fun p => some (mediaEvtJ (.str p))) =
      .ok { stream_sid := sid,
            sent_openai := ps.map fun p => audioAppendJ (.str p) } := by
  show (match receive_step false inInit (some (startEvtJ sid)) with
        | .ok st2 => receive_from_twilio false st2 (ps.map fun p => some (mediaEvtJ (.str p)))
        | .error st2 => .error st2) = _
  have hstep : receive_step false inInit (some (startEvtJ sid)) =
      .ok { stream_sid := sid, sent_openai := [] } := rfl
  rw [hstep]
  dsimp only
  rw [receive_media_run]
  simp

/-! ### C5: one session-initialization message, before any audio -/

/-- Recognizes a `session.update`-typed message. -/
def isSessionUpdateMsg (m : JVal) : Bool :=
  jvalIsStr (jgetD m ("type".data) .null) ("session.update".data)

/-- Any state change `receive_step` makes to the send trace is the
appending of one `input_audio_buffer.append` message. -/
theorem receive_step_sent (closed : Bool) (st : InState) (m : Option JVal) :
    inStateSent (receive_step closed st m) = st.sent_openai ∨
      ∃ p, inStateSent (receive_step closed st m) = st.sent_openai ++ [audioAppendJ p] := by
  rcases m with _ | data
  · exact .inl rfl
  · unfold receive_step
    repeat' split
    all_goals first
      | exact .inl rfl
      | exact .inr ⟨_, rfl⟩

/-- Every message the inbound loop ever sends to the AI connection is an
`input_audio_buffer.append`. -/
theorem receive_sent_all (closed : Bool) (tms : List (Option JVal)) (st : InState)
    (h : ∀ m ∈ st.sent_openai, ∃ p, m = audioAppendJ p) :
    ∀ m ∈ inStateSent (receive_from_twilio closed st tms), ∃ p, m = audioAppendJ p := by
  induction tms generalizing st with
  | nil => exact h
  | cons t ts ih =>
    show ∀ m ∈ inStateSent (match receive_step closed st t with
      | .ok st2 => receive_from_twilio closed st2 ts
      | .error st2 => .error st2), ∃ p, m = audioAppendJ p
    have hsent := receive_step_sent closed st t
    cases hstep : receive_step closed st t with
    | ok st2 =>
      dsimp only
      rw [hstep] at hsent
      simp only [inStateSent] at hsent
      apply ih
      intro m hm
      rcases hsent with hs | ⟨p, hs⟩
      · rw [hs] at hm; exact h m hm
      · rw [hs] at hm
        rcases List.mem_append.mp hm with hm | hm
        · exact h m hm
        · exact ⟨p, List.mem_singleton.mp hm⟩
    | error st2 =>
      dsimp only
      rw [hstep] at hsent
      simp only [inStateSent] at hsent
      intro m hm
      simp only [inStateSent] at hm
      rcases hsent with hs | ⟨p, hs⟩
      · rw [hs] at hm; exact h m hm
      · rw [hs] at hm
        rcases List.mem_append.mp hm with hm | hm
        · exact h m hm
        · exact ⟨p, List.mem_singleton.mp hm⟩

/-- C5.  In every call, exactly one `session.update` message is sent to
the AI connection — the very first message on that socket, declaring
server-side VAD, `g711_ulaw` input and output audio, the voice, the system
instructions, text-and-audio modalities, and the sampling temperature —
and it precedes every forwarded audio frame (everything after it on that
socket is an `input_audio_buffer.append`). -/
theorem c5_session_update_once_first (closed : Bool) (tms aes : List (Option JVal)) :
    (handle_media_stream closed tms aes).sent_openai.head? = some session_update ∧
    ((handle_media_stream closed tms aes).sent_openai.filter isSessionUpdateMsg).length = 1 ∧
    (∀ m ∈ (handle_media_stream closed tms aes).sent_openai.tail, ∃ p, m = audioAppendJ p) ∧
    (jget session_update ("session".data)).bind (fun s => jget s ("turn_detection".data)) =
      .ok (.obj [("type".data, .str ("server_vad".data))]) ∧
    (jget session_update ("session".data)).bind (fun s => jget s ("input_audio_format".data)) =
      .ok (.str ("g711_ulaw".data)) ∧
    (jget session_update ("session".data)).bind (fun s => jget s ("output_audio_format".data)) =
      .ok (.str ("g711_ulaw".data)) ∧
    (jget session_update ("session".data)).bind (fun s => jget s ("voice".data)) =
      .ok (.str VOICE) ∧
    (jget session_update ("session".data)).bind (fun s => jget s ("instructions".data)) =
      .ok (.str SYSTEM_MESSAGE) ∧
    (jget session_update ("session".data)).bind (fun s => jget s ("modalities".data)) =
      .ok (.arr [.str ("text".data), .str ("audio".data)]) ∧
    (jget session_update ("session".data)).bind (fun s => jget s ("temperature".data)) =
      .ok (.num ("0.8".data)) := by
  have hall : ∀ m ∈ (handle_media_stream closed tms aes).sent_openai.tail,
      ∃ p, m = audioAppendJ p := by
    show ∀ m ∈ inStateSent (receive_from_twilio closed inInit tms), ∃ p, m = audioAppendJ p
    exact receive_sent_all closed tms inInit (by simp [inInit])
  refine ⟨rfl, ?_, hall, rfl, rfl, rfl, rfl, rfl, rfl, rfl⟩
  show (List.filter isSessionUpdateMsg
      (session_update :: inStateSent (receive_from_twilio closed inInit tms))).length = 1
  rw [List.filter_cons_of_pos (by rfl)]
  have hnil : List.filter isSessionUpdateMsg
      (inStateSent (receive_from_twilio closed inInit tms)) = [] := by
    rw [List.filter_eq_nil_iff]
    intro a ha
    obtain ⟨p, rfl⟩ := hall a ha
    simp [isSessionUpdateMsg, jgetD, audioAppendJ, jvalIsStr]
  rw [hnil]
  rfl

/-! ### C6: in-order, exactly-once transcript accumulation -/

/-- The texts the outbound loop logs: for each `response.content.done`
event, the f-string conversion of its `content` field (empty string when
the field is absent, per `response.get('content', "")`). -/
def producedTexts : List (Option JVal) → List Str
  | [] => []
  | none :: es => producedTexts es
  | some r :: es =>
    match jget r ("type".data) with
    | .ok ty =>
      if jvalIsStr ty ("response.content.done".data) then
        pyStr (jgetD r ("content".data) (.str [])) :: producedTexts es
      else producedTexts es
    | .error _ => producedTexts es

/-- The transcript fragment line 138 builds from a list of produced texts. -/
def transcriptOf : List Str → Str
  | [] => []
  | t :: ts => "AI: ".data ++ t ++ "\n".data ++ transcriptOf ts

/-- The state as the outer exception handler of line 143 leaves it. -/
def outStateOf : Except OutState OutState → OutState
  | .ok st => st
  | .error st => st

theorem producedTexts_cons (m : Option JVal) (ms : List (Option JVal)) :
    producedTexts (m :: ms) = producedTexts [m] ++ producedTexts ms := by
  rcases m with _ | r
  · rfl
  · simp only [producedTexts]
    cases jget r ("type".data) with
    | error e => rfl
    | ok ty =>
      dsimp only
      split
      · rfl
      · rfl

theorem transcriptOf_append (a b : List Str) :
    transcriptOf (a ++ b) = transcriptOf a ++ transcriptOf b := by
  induction a with
  | nil => rfl
  | cons t ts ih => simp [transcriptOf, ih]

/-- The audio-delta branch touches only the outgoing frame trace. -/
theorem audio_delta_branch_fields (st : OutState) (r ty : JVal) :
    (audio_delta_branch st r ty).conversation_log = st.conversation_log ∧
    (audio_delta_branch st r ty).client_name = st.client_name ∧
    (audio_delta_branch st r ty).stream_sid = st.stream_sid := by
  unfold audio_delta_branch
  repeat' split
  all_goals exact ⟨rfl, rfl, rfl⟩

/-- Lines 140-141 never overwrite a name already set away from the
sentinel. -/
theorem nameUpdate_ne (n s : Str) (h : n ≠ unknownClient) :
    nameUpdate n s = n := by
  unfold nameUpdate
  have hb : (n == unknownClient) = false := beq_eq_false_iff_ne.mpr h
  simp [hb]

/-- One outbound step appends exactly the transcript fragment of its event
to the log — whether it returns or raises — and never changes a
non-sentinel `client_name`. -/
theorem send_step_log_name (st : OutState) (m : Option JVal) :
    (outStateOf (send_step st m)).conversation_log =
      st.conversation_log ++ transcriptOf (producedTexts [m]) ∧
    (st.client_name ≠ unknownClient →
      (outStateOf (send_step st m)).client_name = st.client_name) := by
  rcases m with _ | r
  · simp [send_step, outStateOf, producedTexts, transcriptOf]
  · cases hty : jget r ("type".data) with
    | error e =>
      simp [send_step, outStateOf, producedTexts, transcriptOf, hty]
    | ok ty =>
      have hfields := audio_delta_branch_fields st r ty
      cases hc : jvalIsStr ty ("response.content.done".data) with
      | false =>
        constructor
        · show (outStateOf (send_step st (some r))).conversation_log = _
          simp [send_step, hty, hc, outStateOf, producedTexts, transcriptOf, hfields.1]
        · intro hne
          simp [send_step, hty, hc, outStateOf, hfields.2.1]
      | true =>
        have hgoal : outStateOf (send_step st (some r)) =
            { audio_delta_branch st r ty with
              conversation_log := (audio_delta_branch st r ty).conversation_log ++
                aiLine (jgetD r ("content".data) (.str [])),
              client_name :=
                match jgetD r ("content".data) (.str []) with
                | .str s => nameUpdate (audio_delta_branch st r ty).client_name s
                | _ => (audio_delta_branch st r ty).client_name } := by
          simp only [send_step, hty, hc]
          cases hai : jgetD r ("content".data) (.str []) <;> rfl
        constructor
        · rw [hgoal]
          simp only [producedTexts, hty, hc, if_true, transcriptOf, aiLine, hfields.1]
          simp
        · intro hne
          rw [hgoal]
          cases hai : jgetD r ("content".data) (.str []) <;>
            simp_all [nameUpdate_ne, hfields.2.1]

/-- C6.  Whenever the outbound loop consumes its whole event stream
without an escaping exception, the final `conversation_log` extends the
initial one by exactly the texts of the `response.content.done` events, in
arrival order, each exactly once. -/
theorem c6_transcript_order (st : OutState) (es : List (Option JVal))
    (h : (send_to_twilio st es).2 = true) :
    (send_to_twilio st es).1.conversation_log =
      st.conversation_log ++ transcriptOf (producedTexts es) := by
  induction es generalizing st with
  | nil => simp [send_to_twilio, producedTexts, transcriptOf]
  | cons m ms ih =>
    have hsl := (send_step_log_name st m).1
    cases hstep : send_step st m with
    | ok st2 =>
      rw [hstep] at hsl
      simp only [outStateOf] at hsl
      simp only [send_to_twilio, hstep] at h ⊢
      have htc : transcriptOf (producedTexts (m :: ms)) =
          transcriptOf (producedTexts [m]) ++ transcriptOf (producedTexts ms) := by
        rw [producedTexts_cons m ms, transcriptOf_append]
      rw [ih st2 h, hsl, htc, List.append_assoc]
    | error st2 =>
      simp [send_to_twilio, hstep] at h

/-- C6 witness. -/
theorem c6_transcript_order_witness :
    (send_to_twilio outInit
        [some (contentDoneJ ("Hello".data)), some (contentDoneJ ("Bye".data))]).2 = true ∧
    (send_to_twilio outInit
        [some (contentDoneJ ("Hello".data)), some (contentDoneJ ("Bye".data))]).1.conversation_log =
      outInit.conversation_log ++
        transcriptOf (producedTexts
          [some (contentDoneJ ("Hello".data)), some (contentDoneJ ("Bye".data))]) :=
  ⟨rfl, c6_transcript_order outInit
    [some (contentDoneJ ("Hello".data)), some (contentDoneJ ("Bye".data))] rfl⟩

/-! ### C7: `client_name` is never overwritten once set -/

/-- C7.  Once `client_name` holds anything other than the sentinel
`"Unknown Client"`, no later AI event — whatever its shape — changes it:
the guard of line 140 requires the sentinel before writing. -/
theorem c7_name_write_once (st : OutState) (es : List (Option JVal))
    (h : st.client_name ≠ unknownClient) :
    (send_to_twilio st es).1.client_name = st.client_name := by
  induction es generalizing st with
  | nil => rfl
  | cons m ms ih =>
    have hsl := (send_step_log_name st m).2 h
    cases hstep : send_step st m with
    | ok st2 =>
      rw [hstep] at hsl
      simp only [outStateOf] at hsl
      simp only [send_to_twilio, hstep]
      rw [ih st2 (by rw [hsl]; exact h), hsl]
    | error st2 =>
      rw [hstep] at hsl
      simp only [outStateOf] at hsl
      simp [send_to_twilio, hstep, hsl]

/-- C7 witness. -/
theorem c7_name_write_once_witness :
    ({ outInit with client_name := "Asha".data } : OutState).client_name ≠ unknownClient ∧
    (send_to_twilio { outInit with client_name := "Asha".data }
        [some (contentDoneJ ("your name is Ravi".data))]).1.client_name =
      ({ outInit with client_name := "Asha".data } : OutState).client_name :=
  ⟨by decide, c7_name_write_once { outInit with client_name := "Asha".data }
    [some (contentDoneJ ("your name is Ravi".data))] (by decide)⟩

/-! ### C8: audio deltas arriving while `stream_sid` is unknown -/

/-- C8, counterexample.  A `response.audio.delta` event processed while
`stream_sid` is still null is neither deferred nor dropped: lines 124-131
deliver it to the telephony connection as a `media` frame whose
`streamSid` field is null. -/
theorem c8_counterexample :
    send_to_twilio outInit [some (audioDeltaJ ("AA==".data))] =
      ({ outInit with sent_twilio := [twilioMediaJ .null ("AA==".data)] }, true) := rfl

/-- C8, amended: when `stream_sid` is not yet known, a well-formed
`response.audio.delta` frame is still delivered to the telephony
connection, stamped with a null `streamSid`; the step never raises (a
payload that fails to base64-decode is swallowed by the inner handler of
lines 122-133 and the frame alone is dropped). -/
theorem c8_delta_null_sid (st : OutState) (d : Str)
    (h1 : st.stream_sid = JVal.null) (h2 : d ≠ []) :
    send_step st (some (audioDeltaJ d)) =
      .ok (match b64RoundTrip d with
           | .ok p => { st with sent_twilio := st.sent_twilio ++ [twilioMediaJ .null p] }
           | .error _ => st) := by
  rcases d with _ | ⟨c, t⟩
  · exact absurd rfl h2
  · show send_step st (some (audioDeltaJ (c :: t))) = _
    have htr : pyTruthy (jgetD (audioDeltaJ (c :: t)) ("delta".data) .null) = true := rfl
    simp only [send_step, audioDeltaJ, jget, jgetD, jvalIsStr, deltaPayload]
    cases hb : b64RoundTrip (c :: t) with
    | ok p =>
      simp [send_step, audio_delta_branch, deltaPayload, audioDeltaJ, jget, jgetD,
        jvalIsStr, pyTruthy, hb, h1]
    | error e =>
      simp [send_step, audio_delta_branch, deltaPayload, audioDeltaJ, jget, jgetD,
        jvalIsStr, pyTruthy, hb, h1]

/-- C8 witness. -/
theorem c8_delta_null_sid_witness :
    outInit.stream_sid = JVal.null ∧ "AA==".data ≠ [] ∧
    send_step outInit (some (audioDeltaJ ("AA==".data))) =
      .ok (match b64RoundTrip ("AA==".data) with
           | .ok p => { outInit with sent_twilio := outInit.sent_twilio ++ [twilioMediaJ .null p] }
           | .error _ => outInit) :=
  ⟨rfl, by decide, c8_delta_null_sid outInit ("AA==".data) rfl (by decide)⟩

/-! ### C9: exactly one persistence handoff per completed call -/

/-- C9.  Whenever the inbound loop terminates without an uncaught
exception (the outbound loop always does), the pair
`(client_name, conversation_log)` produced by the outbound loop is handed
to `store_conversation` exactly once, keyed by the captured name — spaces
replaced by underscores — or by the default key when no name was
captured. -/
theorem c9_store_once (closed : Bool) (tms aes : List (Option JVal))
    (h : ∃ s, receive_from_twilio closed inInit tms = .ok s) :
    (handle_media_stream closed tms aes).stored =
      some (store_conversation (send_to_twilio outInit aes).1.client_name
              (send_to_twilio outInit aes).1.conversation_log) ∧
    ((send_to_twilio outInit aes).1.client_name = unknownClient →
      (store_conversation (send_to_twilio outInit aes).1.client_name
        (send_to_twilio outInit aes).1.conversation_log).1 =
        "Unknown_Client_loan_conversation.txt".data) ∧
    ((send_to_twilio outInit aes).1.client_name ≠ unknownClient →
      (store_conversation (send_to_twilio outInit aes).1.client_name
        (send_to_twilio outInit aes).1.conversation_log).1 =
        pyReplaceSpace (send_to_twilio outInit aes).1.client_name ++
          "_loan_conversation.txt".data) := by
  obtain ⟨s, hs⟩ := h
  refine ⟨?_, ?_, ?_⟩
  · simp [handle_media_stream, hs]
  · intro he
    simp [store_conversation, he]
  · intro hne
    have hb : ((send_to_twilio outInit aes).1.client_name == unknownClient) = false :=
      beq_eq_false_iff_ne.mpr hne
    simp [store_conversation, hb]

/-- C9 witness. -/
theorem c9_store_once_witness :
    (∃ s, receive_from_twilio false inInit [] = .ok s) ∧
    (handle_media_stream false [] []).stored =
      some (store_conversation (send_to_twilio outInit []).1.client_name
              (send_to_twilio outInit []).1.conversation_log) :=
  ⟨⟨inInit, rfl⟩, (c9_store_once false [] [] ⟨inInit, rfl⟩).1⟩

/-! ### C10: the name-extraction heuristic

`client_name = ai_response.split("name")[-1].strip()` (line 141), guarded
by `"name" in ai_response.lower()` (line 140).  The claim characterises
`split("name")[-1]` as the portion of the text after the last lowercase
occurrence of `"name"`; `afterLast` below is that characterisation written
from the claim's words, and `pySplit_name_last` proves the code's
expression equal to it. -/

/-- Modelled from the claim's wording: the suffix of `s` strictly after
the last occurrence of `sep`, scanning left to right.  Position 0 is the
last occurrence exactly when `sep` matches there and occurs nowhere later,
i.e. not in the tail. -/
def afterLastAux (sep : Str) : Str → Str
  | [] => []
  | c :: t =>
    match sep.isPrefixOf (c :: t) && !pyContains sep t with
    | true => List.drop sep.length (c :: t)
    | false => afterLastAux sep t

/-- The portion of `s` after the last occurrence of `sep`, and all of `s`
when `sep` does not occur (which is what `s.split(sep)[-1]` yields then). -/
def afterLast (sep s : Str) : Str :=
  if pyContains sep s then afterLastAux sep s else s

/-- Greedy `split` never produces an empty list. -/
theorem pySplitFuel_ne_nil (sep : Str) (f : Nat) (s : Str) :
    pySplitFuel sep f s ≠ [] := by
  cases f with
  | zero => cases s <;> simp [pySplitFuel]
  | succ f =>
    cases s with
    | nil => simp [pySplitFuel]
    | cons c t =>
      simp only [pySplitFuel]
      split
      · simp
      · split <;> simp

/-- A `"name"` prefix forces the first four characters. -/
theorem name_prefix_shape (s : Str) (h : nameLit.isPrefixOf s = true) :
    ∃ rest, s = 'n' :: 'a' :: 'm' :: 'e' :: rest := by
  rcases s with _ | ⟨c1, s⟩
  · simp [nameLit, List.isPrefixOf] at h
  rcases s with _ | ⟨c2, s⟩
  · simp [nameLit, List.isPrefixOf] at h
  rcases s with _ | ⟨c3, s⟩
  · simp [nameLit, List.isPrefixOf] at h
  rcases s with _ | ⟨c4, rest⟩
  · simp [nameLit, List.isPrefixOf] at h
  simp only [nameLit, List.isPrefixOf, Bool.and_eq_true, beq_iff_eq] at h
  obtain ⟨h1, h2, h3, h4, -⟩ := h
  subst h1; subst h2; subst h3; subst h4
  exact ⟨rest, rfl⟩

/-- The word `"name"` does not overlap itself: occurrences of `"name"` in
`'a' :: 'm' :: 'e' :: rest` are exactly the occurrences in `rest`. -/
theorem contains_name_ame (rest : Str) :
    pyContains nameLit ('a' :: 'm' :: 'e' :: rest) = pyContains nameLit rest := rfl

/-- Same skip for the scan of `afterLastAux`. -/
theorem afterLastAux_name_ame (rest : Str) :
    afterLastAux nameLit ('a' :: 'm' :: 'e' :: rest) = afterLastAux nameLit rest := rfl

/-- When no occurrence exists, `split` returns the whole string alone. -/
theorem pySplitFuel_no_occ (f : Nat) : ∀ (s : Str),
    pyContains nameLit s = false → s.length ≤ f → pySplitFuel nameLit f s = [s] := by
  induction f with
  | zero =>
    intro s hc hl
    cases s with
    | nil => rfl
    | cons c t => simp at hl
  | succ f ih =>
    intro s hc hl
    cases s with
    | nil => rfl
    | cons c t =>
      simp only [pyContains, Bool.or_eq_false_iff] at hc
      obtain ⟨hpre, hct⟩ := hc
      have hlen : t.length ≤ f := by simp [List.length_cons] at hl; omega
      have hsplit : pySplitFuel nameLit (f + 1) (c :: t) =
          match pySplitFuel nameLit f t with
          | [] => [[c]]
          | h :: r => (c :: h) :: r := by
        simp [pySplitFuel, hpre]
      rw [hsplit, ih t hct hlen]

/-- When an occurrence exists, `split` returns at least two chunks. -/
theorem pySplitFuel_two (f : Nat) : ∀ (s : Str),
    pyContains nameLit s = true → s.length ≤ f →
    2 ≤ (pySplitFuel nameLit f s).length := by
  induction f with
  | zero =>
    intro s hc hl
    cases s with
    | nil => simp [pyContains, nameLit] at hc
    | cons c t => simp at hl
  | succ f ih =>
    intro s hc hl
    cases s with
    | nil => simp [pyContains, nameLit] at hc
    | cons c t =>
      have hlen : t.length ≤ f := by simp [List.length_cons] at hl; omega
      cases hpre : nameLit.isPrefixOf (c :: t) with
      | true =>
        have hsplit : pySplitFuel nameLit (f + 1) (c :: t) =
            [] :: pySplitFuel nameLit f (List.drop (nameLit.length - 1) t) := by
          simp [pySplitFuel, hpre]
        rw [hsplit]
        have hpos : 0 < (pySplitFuel nameLit f (List.drop (nameLit.length - 1) t)).length :=
          List.length_pos.mpr (pySplitFuel_ne_nil nameLit f (List.drop (nameLit.length - 1) t))
        simp only [List.length_cons]
        omega
      | false =>
        have hct : pyContains nameLit t = true := by
          simp only [pyContains, hpre, Bool.false_or] at hc
          exact hc
        have hsplit : pySplitFuel nameLit (f + 1) (c :: t) =
            match pySplitFuel nameLit f t with
            | [] => [[c]]
            | h :: r => (c :: h) :: r := by
          simp [pySplitFuel, hpre]
        rw [hsplit]
        cases hgo : pySplitFuel nameLit f t with
        | nil => exact absurd hgo (pySplitFuel_ne_nil nameLit f t)
        | cons hd r =>
          have h2 := ih t hct hlen
          rw [hgo] at h2
          simp only [List.length_cons] at h2 ⊢
          omega

/-- The last chunk of a non-empty-last list ignores the default. -/
theorem getLastD_irrel (l : List Str) (a b : Str) (h : l ≠ []) :
    l.getLastD a = l.getLastD b := by
  cases l with
  | nil => exact absurd rfl h
  | cons x xs => rw [List.getLastD_cons, List.getLastD_cons]

/-- Skipping a whole occurrence of `"name"` at the front does not change
the portion after the last occurrence. -/
theorem afterLast_name_cons (rest : Str) :
    afterLast nameLit ('n' :: 'a' :: 'm' :: 'e' :: rest) = afterLast nameLit rest := by
  unfold afterLast
  have hfull : pyContains nameLit ('n' :: 'a' :: 'm' :: 'e' :: rest) = true := by
    simp only [pyContains]
    have : nameLit.isPrefixOf ('n' :: 'a' :: 'm' :: 'e' :: rest) = true := by
      simp [nameLit, List.isPrefixOf]
    simp [this]
  rw [hfull]
  cases hcr : pyContains nameLit rest with
  | false =>
    simp only [if_false, Bool.false_eq_true]
    show afterLastAux nameLit ('n' :: 'a' :: 'm' :: 'e' :: rest) = rest
    simp only [afterLastAux]
    rw [show pyContains nameLit ('a' :: 'm' :: 'e' :: rest) = false from
      (contains_name_ame rest).trans hcr]
    simp [nameLit, List.isPrefixOf]
  | true =>
    simp only [if_true]
    show afterLastAux nameLit ('n' :: 'a' :: 'm' :: 'e' :: rest) = afterLastAux nameLit rest
    simp only [afterLastAux]
    rw [show pyContains nameLit ('a' :: 'm' :: 'e' :: rest) = true from
      (contains_name_ame rest).trans hcr]
    simp only [Bool.not_true, Bool.and_false]
    exact afterLastAux_name_ame rest

/-- The last chunk of the greedy split on `"name"` is the portion of the
string after the last occurrence of `"name"` (the whole string when there
is none). -/
theorem pySplitFuel_last (f : Nat) : ∀ (s : Str), s.length ≤ f →
    (pySplitFuel nameLit f s).getLastD [] = afterLast nameLit s := by
  induction f with
  | zero =>
    intro s hl
    cases s with
    | nil => rfl
    | cons c t => simp at hl
  | succ f ih =>
    intro s hl
    cases s with
    | nil => rfl
    | cons c t =>
      cases hpre : nameLit.isPrefixOf (c :: t) with
      | true =>
        obtain ⟨rest, hshape⟩ := name_prefix_shape (c :: t) hpre
        injection hshape with hc ht
        subst hc; subst ht
        have hpre2 : nameLit.isPrefixOf ('n' :: 'a' :: 'm' :: 'e' :: rest) = true := hpre
        have h3 : List.length nameLit - 1 = 3 := rfl
        have hsplit : pySplitFuel nameLit (f + 1) ('n' :: 'a' :: 'm' :: 'e' :: rest) =
            [] :: pySplitFuel nameLit f rest := by
          simp [pySplitFuel, hpre2, h3]
        rw [hsplit, List.getLastD_cons]
        have hlen : rest.length ≤ f := by simp [List.length_cons] at hl; omega
        rw [ih rest hlen, afterLast_name_cons]
      | false =>
        have hlen : t.length ≤ f := by simp [List.length_cons] at hl; omega
        have h1 : pySplitFuel nameLit (f + 1) (c :: t) =
            match pySplitFuel nameLit f t with
            | [] => [[c]]
            | h :: r => (c :: h) :: r := by
          simp [pySplitFuel, hpre]
        cases hct : pyContains nameLit t with
        | false =>
          have hsplit : pySplitFuel nameLit (f + 1) (c :: t) = [c :: t] := by
            rw [h1, pySplitFuel_no_occ f t hct hlen]
          rw [hsplit]
          have hcc : pyContains nameLit (c :: t) = false := by
            simp [pyContains, hpre, hct]
          simp [afterLast, hcc, List.getLastD_cons]
        | true =>
          have hcc : pyContains nameLit (c :: t) = true := by
            simp [pyContains, hct]
          cases hgo : pySplitFuel nameLit f t with
          | nil => exact absurd hgo (pySplitFuel_ne_nil nameLit f t)
          | cons hd r =>
            have hsplit : pySplitFuel nameLit (f + 1) (c :: t) = (c :: hd) :: r := by
              rw [h1, hgo]
            have h2 := pySplitFuel_two f t hct hlen
            rw [hgo] at h2
            have hr : r ≠ [] := by
              intro hre
              rw [hre] at h2
              simp at h2
            rw [hsplit, List.getLastD_cons]
            have hih := ih t hlen
            rw [hgo, List.getLastD_cons] at hih
            rw [getLastD_irrel r (c :: hd) hd hr, hih]
            unfold afterLast
            rw [hct, hcc]
            show afterLastAux nameLit t = afterLastAux nameLit (c :: t)
            simp only [afterLastAux, hpre, Bool.false_and]

/-- Python `s.split("name")[-1]` equals the portion of `s` after the last
occurrence of `"name"`. -/
theorem pySplit_name_last (s : Str) :
    (pySplit nameLit s).getLastD [] = afterLast nameLit s := by
  have hne : nameLit.isEmpty = false := rfl
  simp only [pySplit, hne, Bool.false_eq_true, if_false]
  exact pySplitFuel_last s.length s (le_refl _)

/-- C10.  When a `response.content.done` text contains `"name"`
case-insensitively while `client_name` still holds the sentinel, the value
stored is the portion of the text after the last lowercase occurrence of
`"name"`, stripped of surrounding whitespace (and the full log line is
appended as usual).  In particular `afterLast` leaves the whole text when
`"name"` occurs only in another letter case, and leaves the empty string
when the text ends exactly at a lowercase `"name"`. -/
theorem c10_name_heuristic (st : OutState) (s : Str)
    (h1 : st.client_name = unknownClient)
    (h2 : pyContains nameLit (pyLower s) = true) :
    (send_step st (some (contentDoneJ s)) =
      .ok { st with
            conversation_log := st.conversation_log ++ aiLine (.str s),
            client_name := pyStrip (afterLast nameLit s) }) ∧
    afterLast nameLit ("Please tell me your Name".data) =
      "Please tell me your Name".data ∧
    afterLast nameLit ("what is your name".data) = [] := by
  refine ⟨?_, by decide, by decide⟩
  have hstep : send_step st (some (contentDoneJ s)) =
      .ok { st with
            conversation_log := st.conversation_log ++ aiLine (.str s),
            client_name := nameUpdate st.client_name s } := rfl
  rw [hstep]
  have hname : nameUpdate st.client_name s = pyStrip (afterLast nameLit s) := by
    rw [h1]
    unfold nameUpdate
    rw [pySplit_name_last, h2]
    simp
  rw [hname]

/-- C10 witness. -/
theorem c10_name_heuristic_witness :
    outInit.client_name = unknownClient ∧
    pyContains nameLit (pyLower ("Please tell me your Name".data)) = true ∧
    ((send_step outInit (some (contentDoneJ ("Please tell me your Name".data))) =
      .ok { outInit with
            conversation_log := outInit.conversation_log ++
              aiLine (.str ("Please tell me your Name".data)),
            client_name :=
              pyStrip (afterLast nameLit ("Please tell me your Name".data)) }) ∧
     afterLast nameLit ("Please tell me your Name".data) =
       "Please tell me your Name".data ∧
     afterLast nameLit ("what is your name".data) = []) :=
  ⟨rfl, by decide,
    c10_name_heuristic outInit ("Please tell me your Name".data) rfl (by decide)⟩
